import Mathlib

/-!
Verification development for the golines line-shortening engine.

The Go sources are shallowly embedded below:
* text is modelled as `List Char` (one `Char` per Go rune; Go byte lengths
  are recovered with `byteLen` where the source uses `len` on a string);
* the marker-comment helpers of `shorten/internal/annotation` become the
  `Marker` namespace;
* the shortener (`shorten` package: `Config`, `annotateLongLines`,
  `formatDecl`/`formatStmt`/`formatExpr`/`formatSpec`, `chainLength`,
  `Process`) is embedded over a `dst`-style syntax-tree model;
* external collaborators (the `go/format` base formatter and the
  `dave/dst` parser and printer) are explicit function parameters of the
  embedded `Process`;
* `Runner.run` from `main.go` is embedded as `runPaths`.
-/

/-- One line of source text, or any piece of text: a list of runes. -/
abbrev Line : Type := List Char

namespace GoStr

/-- Cutset test for Go `strings.Trim(s, " \t")`. -/
def isCut (c : Char) : Bool := c = ' ' || c = '\t'

/-- Go `strings.Trim(s, " \t")`: remove leading and trailing blanks/tabs. -/
def trimBlank (l : Line) : Line :=
  ((l.dropWhile isCut).reverse.dropWhile isCut).reverse

/-- Split before the first occurrence of `sep`: returns the part before and
the part after the separator, or `none` when `sep` does not occur. -/
def splitFirst (sep : Char) : List Char → Option (List Char × List Char)
  | [] => none
  | c :: rest =>
    if c = sep then some ([], rest)
    else (splitFirst sep rest).map (fun p => (c :: p.1, p.2))

/-- Go `strings.SplitN(s, sep, n)` for a one-rune separator. -/
def splitN (n : Nat) (sep : Char) (l : List Char) : List (List Char) :=
  match n with
  | 0 => []
  | 1 => [l]
  | m + 2 =>
    match splitFirst sep l with
    | none => [l]
    | some (pre, post) => pre :: splitN (m + 1) sep post

/-- Decimal-digit character test, as in `strconv`. -/
def isDigitCh (c : Char) : Bool := '0' ≤ c && c ≤ '9'

/-- Value of a string of decimal digits (most significant first). -/
def digitsVal (l : List Char) : Nat :=
  l.foldl (fun a c => a * 10 + (c.toNat - 48)) 0

/-- Go `strconv.Atoi` on a 64-bit platform: optional sign, at least one
decimal digit, and a range check; any failure is an error (`none`). -/
def atoi (s : List Char) : Option Int :=
  match s with
  | [] => none
  | c :: rest =>
    let digits := if c = '-' ∨ c = '+' then rest else c :: rest
    if digits.isEmpty then none
    else if digits.all isDigitCh then
      let v : Int := (if c = '-' then -1 else 1) * (digitsVal digits : Int)
      if -(2 ^ 63) ≤ v ∧ v ≤ 2 ^ 63 - 1 then some v else none
    else none

/-- One decimal digit as a character (we only use arguments below 10). -/
def digitCh (d : Nat) : Char :=
  match d with
  | 0 => '0' | 1 => '1' | 2 => '2' | 3 => '3' | 4 => '4'
  | 5 => '5' | 6 => '6' | 7 => '7' | 8 => '8' | _ => '9'

/-- Fuel-driven core of decimal rendering (fuel makes it structurally
recursive, hence kernel-reducible); mirrors `fmt.Sprintf("%d", n)`. -/
def natCharsCore : Nat → Nat → List Char → List Char
  | 0, _, acc => acc
  | fuel + 1, n, acc =>
    if n < 10 then digitCh n :: acc
    else natCharsCore fuel (n / 10) (digitCh (n % 10) :: acc)

/-- Decimal rendering of a natural number, as Go `fmt.Sprintf("%d", n)`. -/
def natChars (n : Nat) : List Char := natCharsCore (n + 1) n []

end GoStr

namespace Marker

open GoStr

/-- The reserved comment leader of `shorten/internal/annotation`. -/
def pref : Line := "//golines:shorten:".toList

/-- `annotation.Create`: the text of the comment annotating a long line. -/
def Create (length : Nat) : Line := pref ++ natChars length

/-- `annotation.Is`: whether a line is an annotation created by `Create`. -/
def Is (line : Line) : Bool := pref.isPrefixOf (trimBlank line)

/-- `annotation.Parse`: the line length encoded in an annotation, `-1` when
the line is not a (well-formed) annotation. -/
def Parse (line : Line) : Int :=
  if Is line then
    match atoi ((splitN 3 ':' line).getD 2 []) with
    | some v => v
    | none => -1
  else -1

end Marker

namespace GoStr

theorem natCharsCore_acc (fuel : Nat) :
    ∀ (n : Nat) (acc : List Char),
      natCharsCore fuel n acc = natCharsCore fuel n [] ++ acc := by
  induction fuel with
  | zero => intro n acc; rfl
  | succ f ih =>
    intro n acc
    simp only [natCharsCore]
    split
    · rfl
    · rw [ih (n / 10) (digitCh (n % 10) :: acc), ih (n / 10) [digitCh (n % 10)]]
      simp

theorem natCharsCore_fuel (f : Nat) :
    ∀ (g n : Nat) (acc : List Char), n < f → n < g →
      natCharsCore f n acc = natCharsCore g n acc := by
  induction f with
  | zero => intro g n acc h; omega
  | succ f ih =>
    intro g n acc hf hg
    match g, hg with
    | g' + 1, _ =>
      simp only [natCharsCore]
      split
      · rfl
      · have hlt : n / 10 < n := Nat.div_lt_self (by omega) (by omega)
        exact ih g' (n / 10) (digitCh (n % 10) :: acc) (by omega) (by omega)

theorem natChars_small {n : Nat} (h : n < 10) : natChars n = [digitCh n] := by
  simp [natChars, natCharsCore, h]

theorem natChars_step {n : Nat} (h : 10 ≤ n) :
    natChars n = natChars (n / 10) ++ [digitCh (n % 10)] := by
  have hlt : n / 10 < n := Nat.div_lt_self (by omega) (by omega)
  conv_lhs => rw [natChars]
  rw [show natCharsCore (n + 1) n [] = natCharsCore n (n / 10) [digitCh (n % 10)] by
    simp [natCharsCore]; omega]
  rw [natCharsCore_acc, natCharsCore_fuel n (n / 10 + 1) (n / 10) [] (by omega) (by omega)]
  rfl

theorem natChars_concat (n : Nat) :
    ∃ xs, natChars n = xs ++ [digitCh (n % 10)] := by
  rcases Nat.lt_or_ge n 10 with h | h
  · exact ⟨[], by rw [natChars_small h, Nat.mod_eq_of_lt h]; rfl⟩
  · exact ⟨natChars (n / 10), natChars_step h⟩

theorem isDigitCh_digitCh (d : Nat) : isDigitCh (digitCh d) = true := by
  unfold digitCh
  split <;> decide

theorem toNat_digitCh {d : Nat} (h : d < 10) : (digitCh d).toNat - 48 = d := by
  interval_cases d <;> decide

theorem digitsVal_natChars (n : Nat) : digitsVal (natChars n) = n := by
  induction n using Nat.strong_induction_on with
  | _ n ih =>
    rcases Nat.lt_or_ge n 10 with h | h
    · rw [natChars_small h]
      simp [digitsVal, toNat_digitCh h]
    · have hlt : n / 10 < n := Nat.div_lt_self (by omega) (by omega)
      rw [natChars_step h]
      simp only [digitsVal, List.foldl_append, List.foldl_cons, List.foldl_nil]
      have hv := ih (n / 10) hlt
      simp only [digitsVal] at hv
      rw [hv, toNat_digitCh (Nat.mod_lt n (by omega))]
      omega

theorem natChars_ne_nil (n : Nat) : natChars n ≠ [] := by
  obtain ⟨xs, hx⟩ := natChars_concat n
  simp [hx]

theorem natChars_all_digits (n : Nat) : (natChars n).all isDigitCh = true := by
  induction n using Nat.strong_induction_on with
  | _ n ih =>
    rcases Nat.lt_or_ge n 10 with h | h
    · rw [natChars_small h]
      simp [isDigitCh_digitCh]
    · have hlt : n / 10 < n := Nat.div_lt_self (by omega) (by omega)
      rw [natChars_step h]
      simp only [List.all_append, List.all_cons, List.all_nil, Bool.and_true]
      rw [ih (n / 10) hlt, isDigitCh_digitCh]
      rfl

theorem isCut_eq_false_of_digit {c : Char} (h : isDigitCh c = true) :
    isCut c = false := by
  simp only [isDigitCh, Bool.and_eq_true, decide_eq_true_eq] at h
  simp only [isCut, Bool.or_eq_false_iff, decide_eq_false_iff_not]
  constructor
  · rintro rfl; exact absurd h.1 (by decide)
  · rintro rfl; exact absurd h.1 (by decide)

theorem isPrefixOf_append (l t : List Char) : l.isPrefixOf (l ++ t) = true := by
  induction l with
  | nil => simp [List.isPrefixOf]
  | cons a l ih => simp [List.isPrefixOf, ih]

theorem dropWhile_cons_of_not {p : Char → Bool} {c : Char} (l : List Char)
    (h : p c = false) : (c :: l).dropWhile p = c :: l := by
  simp [List.dropWhile, h]

end GoStr

namespace Marker

open GoStr

theorem trimBlank_Create (n : Nat) : trimBlank (Create n) = Create n := by
  obtain ⟨xs, hx⟩ := natChars_concat n
  have hd : isCut (digitCh (n % 10)) = false :=
    isCut_eq_false_of_digit (isDigitCh_digitCh _)
  have h1 : (Create n).dropWhile isCut = Create n := by
    simp only [Create, pref, hx]
    rfl
  have h2 : (Create n).reverse.dropWhile isCut = (Create n).reverse := by
    have : (Create n).reverse = digitCh (n % 10) :: (xs.reverse ++ pref.reverse) := by
      simp [Create, hx]
    rw [this, dropWhile_cons_of_not _ hd]
  simp [trimBlank, h1, h2]

theorem Is_Create (n : Nat) : Is (Create n) = true := by
  rw [Is, trimBlank_Create]
  exact isPrefixOf_append pref (natChars n)

theorem splitN_Create (n : Nat) :
    splitN 3 ':' (Create n) =
      ["//golines".toList, "shorten".toList, natChars n] := by
  rfl

theorem atoi_digits (s : List Char) (hne : s ≠ []) (hall : s.all isDigitCh = true)
    (hrange : digitsVal s ≤ 2 ^ 63 - 1) : atoi s = some ((digitsVal s : Int)) := by
  rcases s with _ | ⟨c, rest⟩
  · exact absurd rfl hne
  · have hc : isDigitCh c = true := by
      simp only [List.all_cons, Bool.and_eq_true] at hall
      exact hall.1
    have hsign : ¬(c = '-' ∨ c = '+') := by
      rintro (rfl | rfl) <;> exact absurd hc (by decide)
    have hneg : ¬(c = '-') := fun h => hsign (Or.inl h)
    have hnn : (0 : Int) ≤ (digitsVal (c :: rest) : Int) := Int.natCast_nonneg _
    simp only [atoi, if_neg hsign, List.isEmpty_cons, Bool.false_eq_true, if_false,
      List.all_cons.symm, hall, if_true, if_neg hneg, one_mul]
    rw [if_pos ⟨by omega, by omega⟩]

end Marker

namespace Marker

open GoStr

theorem Parse_Create {n : Nat} (h : n < 2 ^ 63) : Parse (Create n) = (n : Int) := by
  rw [Parse, if_pos (Is_Create n), splitN_Create]
  have hr : digitsVal (natChars n) ≤ 2 ^ 63 - 1 := by
    rw [digitsVal_natChars]; omega
  rw [show (["//golines".toList, "shorten".toList, natChars n].getD 2 []) = natChars n from rfl]
  rw [atoi_digits _ (natChars_ne_nil n) (natChars_all_digits n) hr, digitsVal_natChars]

end Marker

/-- C10: the line produced by `annotation.Create(n)` satisfies `annotation.Is`,
and `annotation.Parse` recovers exactly `n` (for every `n` in the range of the
Go `int` argument); on any line for which `annotation.Is` is false,
`annotation.Parse` returns `-1`. -/
theorem marker_create_is_parse_roundtrip :
    (∀ n : Nat, n < 2 ^ 63 →
      Marker.Is (Marker.Create n) = true ∧ Marker.Parse (Marker.Create n) = (n : Int)) ∧
    (∀ line : Line, Marker.Is line = false → Marker.Parse line = -1) := by
  refine ⟨fun n hn => ⟨Marker.Is_Create n, Marker.Parse_Create hn⟩, fun line hline => ?_⟩
  rw [Marker.Parse, if_neg (by simp [hline])]

/-- Witness for C10 at the concrete inputs `n = 3` and `line = "x"`. -/
theorem marker_create_is_parse_roundtrip_witness :
    (Marker.Is (Marker.Create 3) = true ∧ Marker.Parse (Marker.Create 3) = (3 : Int)) ∧
    Marker.Parse ['x'] = -1 :=
  ⟨marker_create_is_parse_roundtrip.1 3 (by norm_num),
   marker_create_is_parse_roundtrip.2 ['x'] (by decide)⟩

namespace Shorten

/-- `shorten.Config`: the configuration options of a Shortener instance. -/
structure Config where
  maxLen : Nat
  tabLen : Nat
  keepAnnotations : Bool
  shortenComments : Bool
  reformatTags : Bool
  dotFile : Line
  chainSplitDots : Bool
  deriving DecidableEq, Repr

/-- `shorten.NewDefaultConfig`. -/
def NewDefaultConfig : Config :=
  { maxLen := 100, tabLen := 4, keepAnnotations := false, shortenComments := false,
    reformatTags := true, dotFile := [], chainSplitDots := true }

/-- `Shortener.lineLen`: width of a line after tab expansion. -/
def lineLen (cfg : Config) (line : Line) : Nat :=
  line.foldl (fun acc c => if c = '\t' then acc + cfg.tabLen else acc + 1) 0

/-- `shorten.isComment`: whether the line is a non-block comment. -/
def isComment (line : Line) : Bool :=
  "//".toList.isPrefixOf (GoStr.trimBlank line)

/-- The recursive core of `Shortener.annotateLongLines`. The Go loop appends
to `annotatedLines` and edits or drops its last element; here the list built
so far is kept reversed (`racc`), so those edits act on the head, and it is
reversed back on return. `prevLen` is `annotation.Parse` of the previous
line (`-1` before the first line), `cnt` is `linesToShorten` so far. -/
def annotateCore (cfg : Config) : List Line → List Line → Nat → Int → List Line × Nat
  | racc, [], cnt, _ => (racc.reverse, cnt)
  | racc, line :: rest, cnt, prevLen =>
    let length := lineLen cfg line
    let next : List Line × Nat :=
      if prevLen > -1 then
        if length ≤ cfg.maxLen then (racc.tail, cnt)
        else if (length : Int) < prevLen then (Marker.Create length :: racc.tail, cnt + 1)
        else (racc, cnt)
      else if isComment line = false ∧ cfg.maxLen < length then
        (Marker.Create length :: racc, cnt + 1)
      else (racc, cnt)
    annotateCore cfg (line :: next.1) rest next.2 (Marker.Parse line)

/-- `Shortener.annotateLongLines`: returns the annotated lines and the
`linesToShorten` count. -/
def annotateLongLines (cfg : Config) (lines : List Line) : List Line × Nat :=
  annotateCore cfg [] lines 0 (-1)

/-- Whether, at one position of the scan, the line gets a new or an updated
marker: with a valid marker on the previous line, the line must still be over
`MaxLen` but strictly below the marker's recorded width; with no valid
preceding marker, the line must be a non-comment line over `MaxLen`. -/
def needsMarkerStep (cfg : Config) (prevLen : Int) (line : Line) : Bool :=
  if prevLen > -1 then
    decide (cfg.maxLen < lineLen cfg line ∧ (lineLen cfg line : Int) < prevLen)
  else
    decide (isComment line = false ∧ cfg.maxLen < lineLen cfg line)

/-- Position-local specification of the `linesToShorten` count: the number of
lines that receive a new or an updated marker during one scan. -/
def markerCountSpec (cfg : Config) (prevLen : Int) : List Line → Nat
  | [] => 0
  | l :: rest =>
    (if needsMarkerStep cfg prevLen l then 1 else 0) +
      markerCountSpec cfg (Marker.Parse l) rest

theorem annotateCore_count (cfg : Config) :
    ∀ (lines racc : List Line) (cnt : Nat) (prevLen : Int),
      (annotateCore cfg racc lines cnt prevLen).2 =
        cnt + markerCountSpec cfg prevLen lines := by
  intro lines
  induction lines with
  | nil => intro racc cnt prevLen; simp [annotateCore, markerCountSpec]
  | cons l rest ih =>
    intro racc cnt prevLen
    simp only [annotateCore, markerCountSpec, needsMarkerStep]
    split
    · next hprev =>
      split
      · next hle =>
        rw [ih]
        have : ¬(cfg.maxLen < lineLen cfg l ∧ (lineLen cfg l : Int) < prevLen) := by
          rintro ⟨h1, _⟩; omega
        simp [this]
      · split
        · next hlt =>
          rw [ih]
          have hgt : cfg.maxLen < lineLen cfg l := by omega
          simp [hgt, hlt]
          omega
        · next hge =>
          rw [ih]
          have : ¬(cfg.maxLen < lineLen cfg l ∧ (lineLen cfg l : Int) < prevLen) := by
            rintro ⟨_, h2⟩; omega
          simp [this]
    · next hprev =>
      split
      · next hcond =>
        rw [ih]
        simp [hcond]
        omega
      · next hcond =>
        rw [ih]
        simp [hcond]

end Shorten

namespace Shorten

/-- Number of marker-annotation lines present in a line sequence. -/
def annLineCount (lines : List Line) : Nat :=
  (lines.filter (fun l => Marker.Is l)).length

/-- A small configuration used in concrete counterexamples. -/
def cfgMax5 : Config :=
  { maxLen := 5, tabLen := 4, keepAnnotations := false, shortenComments := false,
    reformatTags := true, dotFile := [], chainSplitDots := true }

end Shorten

/-- C4 (counterexample): with `MaxLen = 5`, on the input consisting of the
marker line `//golines:shorten:6` followed by the 7-wide line `abcdefg`
(still over budget and not below the recorded width 6), `annotateLongLines`
returns the input unchanged with a count of `0`, yet one line still carries a
Marker after the pass — so the count does not equal the number of lines
carrying a Marker, and a stagnant line is not counted as needing work. -/
theorem annotate_count_counterexample :
    (Shorten.annotateLongLines Shorten.cfgMax5
        ["//golines:shorten:6".toList, "abcdefg".toList]).2 = 0 ∧
    Shorten.annLineCount
        ((Shorten.annotateLongLines Shorten.cfgMax5
          ["//golines:shorten:6".toList, "abcdefg".toList]).1) = 1 := by
  decide

/-- C4 (amended): `annotateLongLines` returns a count of the lines that
receive a NEW or an UPDATED marker during the pass, as characterised
position-locally by `needsMarkerStep`; a line that is still over `MaxLen`
but whose width did not shrink below the previous marker's recorded width
keeps its marker unchanged and is NOT counted. -/
theorem annotate_count_eq_fresh_markers (cfg : Shorten.Config) (lines : List Line) :
    (Shorten.annotateLongLines cfg lines).2 =
      Shorten.markerCountSpec cfg (-1) lines := by
  rw [Shorten.annotateLongLines, Shorten.annotateCore_count]
  omega

namespace Dst

/-- `dst.SpaceType`: the whitespace decoration emitted before/after a node. -/
inductive SpaceType where
  | nothing
  | newLine
  | emptyLine
  deriving DecidableEq, Repr

/-- The decoration record carried by every `dst` node: the `Before`/`After`
space type and the `Start`/`End` decoration-comment lists. -/
structure NodeDecs where
  before : SpaceType
  after : SpaceType
  start : List Line
  endL : List Line
  deriving DecidableEq, Repr

/-- Plain decorations: no space hints, no comments. -/
def noDecs : NodeDecs := ⟨SpaceType.nothing, SpaceType.nothing, [], []⟩

/-- `go/token` operator tokens, as far as the shortener distinguishes them:
logical AND, logical OR, and everything else. -/
inductive Tok where
  | land
  | lor
  | otherTok (code : Nat)
  deriving DecidableEq, Repr

mutual
/-- `dst.Decl`: the declaration kinds the shortener dispatches on. -/
inductive Decl where
  | funcDecl (decs : NodeDecs) (params : Option FieldList) (body : Option Stmt)
  | genDecl (decs : NodeDecs) (specs : List Spec)
  | otherDecl (decs : NodeDecs)

/-- `dst.Spec`. -/
inductive Spec where
  | valueSpec (decs : NodeDecs) (values : List Expr)
  | typeSpec (decs : NodeDecs) (ty : Expr)
  | otherSpec (decs : NodeDecs)

/-- `dst.Stmt`: the statement kinds the shortener dispatches on; fields the
rewriter never touches (assignment left-hand sides, `for` clauses, `if`
else branches, `range`/`switch` subjects) are carried along unchanged.
Fields that can be typed-nil in Go (`FuncDecl.Body`, `IfStmt.Init`, ...)
are `Option`s; the `reflect`-based nil check at the top of the Go
`formatStmt` corresponds to mapping over the `Option` at each call site. -/
inductive Stmt where
  | assignStmt (decs : NodeDecs) (lhs : List Expr) (rhs : List Expr)
  | blockStmt (decs : NodeDecs) (stmts : List Stmt)
  | caseClause (decs : NodeDecs) (list : List Expr) (body : List Stmt)
  | commClause (decs : NodeDecs) (comm : Option Stmt) (body : List Stmt)
  | declStmt (decs : NodeDecs) (decl : Decl)
  | deferStmt (decs : NodeDecs) (call : Expr)
  | exprStmt (decs : NodeDecs) (x : Expr)
  | forStmt (decs : NodeDecs) (init : Option Stmt) (cond : Option Expr)
      (post : Option Stmt) (body : Stmt)
  | goStmt (decs : NodeDecs) (call : Expr)
  | ifStmt (decs : NodeDecs) (init : Option Stmt) (cond : Expr) (body : Stmt)
      (els : Option Stmt)
  | rangeStmt (decs : NodeDecs) (key : Option Expr) (value : Option Expr)
      (x : Expr) (body : Stmt)
  | returnStmt (decs : NodeDecs) (results : List Expr)
  | selectStmt (decs : NodeDecs) (body : Stmt)
  | switchStmt (decs : NodeDecs) (init : Option Stmt) (tag : Option Expr) (body : Stmt)
  | otherStmt (decs : NodeDecs)

/-- `dst.Expr`: the expression kinds the shortener dispatches on, plus
`ident`/`otherExpr` for the untouched default case. -/
inductive Expr where
  | binaryExpr (decs : NodeDecs) (x : Expr) (op : Tok) (y : Expr)
  | callExpr (decs : NodeDecs) (fn : Expr) (args : List Expr)
  | compositeLit (decs : NodeDecs) (elts : List Expr)
  | funcLit (decs : NodeDecs) (body : Stmt)
  | funcType (decs : NodeDecs) (params : FieldList)
  | interfaceType (decs : NodeDecs) (methods : FieldList)
  | keyValueExpr (decs : NodeDecs) (key : Expr) (value : Expr)
  | selectorExpr (decs : NodeDecs) (x : Expr) (sel : Expr)
  | structType (decs : NodeDecs) (fields : FieldList)
  | unaryExpr (decs : NodeDecs) (x : Expr)
  | ident (decs : NodeDecs) (name : Line)
  | otherExpr (decs : NodeDecs)

/-- `dst.FieldList`. -/
inductive FieldList where
  | mk (decs : NodeDecs) (list : List Field)

/-- `dst.Field`: its type expression and raw backtick tag literal (if any). -/
inductive Field where
  | mk (decs : NodeDecs) (ty : Expr) (tag : Option Line)
end

def Decl.decsOf : Decl → NodeDecs
  | .funcDecl d _ _ => d
  | .genDecl d _ => d
  | .otherDecl d => d

def Spec.decsOf : Spec → NodeDecs
  | .valueSpec d _ => d
  | .typeSpec d _ => d
  | .otherSpec d => d

def Stmt.decsOf : Stmt → NodeDecs
  | .assignStmt d _ _ => d
  | .blockStmt d _ => d
  | .caseClause d _ _ => d
  | .commClause d _ _ => d
  | .declStmt d _ => d
  | .deferStmt d _ => d
  | .exprStmt d _ => d
  | .forStmt d _ _ _ _ => d
  | .goStmt d _ => d
  | .ifStmt d _ _ _ _ => d
  | .rangeStmt d _ _ _ _ => d
  | .returnStmt d _ => d
  | .selectStmt d _ => d
  | .switchStmt d _ _ _ => d
  | .otherStmt d => d

def Expr.decsOf : Expr → NodeDecs
  | .binaryExpr d _ _ _ => d
  | .callExpr d _ _ => d
  | .compositeLit d _ => d
  | .funcLit d _ => d
  | .funcType d _ => d
  | .interfaceType d _ => d
  | .keyValueExpr d _ _ => d
  | .selectorExpr d _ _ => d
  | .structType d _ => d
  | .unaryExpr d _ => d
  | .ident d _ => d
  | .otherExpr d => d

def Field.decsOf : Field → NodeDecs
  | .mk d _ _ => d

def Field.tyOf : Field → Expr
  | .mk _ t _ => t

def Field.tagOf : Field → Option Line
  | .mk _ _ t => t

/-- Replace a node's decorations (the functional image of mutating the
record returned by Go's `node.Decorations()`). -/
def Expr.withDecs : Expr → NodeDecs → Expr
  | .binaryExpr _ x op y, d => .binaryExpr d x op y
  | .callExpr _ fn args, d => .callExpr d fn args
  | .compositeLit _ elts, d => .compositeLit d elts
  | .funcLit _ body, d => .funcLit d body
  | .funcType _ params, d => .funcType d params
  | .interfaceType _ methods, d => .interfaceType d methods
  | .keyValueExpr _ k v, d => .keyValueExpr d k v
  | .selectorExpr _ x sel, d => .selectorExpr d x sel
  | .structType _ fields, d => .structType d fields
  | .unaryExpr _ x, d => .unaryExpr d x
  | .ident _ name, d => .ident d name
  | .otherExpr _, d => .otherExpr d

def Expr.withBefore (e : Expr) (sp : SpaceType) : Expr :=
  e.withDecs { e.decsOf with before := sp }

def Expr.withAfter (e : Expr) (sp : SpaceType) : Expr :=
  e.withDecs { e.decsOf with after := sp }

def Field.withDecs : Field → NodeDecs → Field
  | .mk _ ty tag, d => .mk d ty tag

def Field.withTag : Field → Option Line → Field
  | .mk d ty _, t => .mk d ty t
end Dst

namespace Dst

/-- `annotation.Has` seen through a node's decorations: the last `Start`
decoration is a marker line. -/
def hasAnn (d : NodeDecs) : Bool :=
  match d.start.getLast? with
  | some l => Marker.Is l
  | none => false

/-- `annotation.HasTail`: the last `End` decoration is a marker line. -/
def hasTailAnn (d : NodeDecs) : Bool :=
  match d.endL.getLast? with
  | some l => Marker.Is l
  | none => false

/-- Does any expression of the list carry an annotation (`Has`)? -/
def anyHasAnn : List Expr → Bool
  | [] => false
  | e :: rest => hasAnn e.decsOf || anyHasAnn rest

mutual
/-- `annotation.HasRecursive` on expressions: the node itself, or — for
selector, call and interface nodes — the designated children. -/
def hasRecursiveExpr : Expr → Bool
  | .selectorExpr decs x sel => hasAnn decs || (hasAnn sel.decsOf || hasAnn x.decsOf)
  | .callExpr decs fn args => hasAnn decs || (hasRecursiveExpr fn || anyHasAnn args)
  | .interfaceType decs (.mk _ fields) => hasAnn decs || anyHasRecursiveField fields
  | e => hasAnn e.decsOf

/-- `annotation.HasRecursive` on a field: `Has`, `HasTail`, or recursively
its type expression. -/
def hasRecursiveField : Field → Bool
  | .mk decs ty _ => (hasAnn decs || hasTailAnn decs) || hasRecursiveExpr ty

def anyHasRecursiveField : List Field → Bool
  | [] => false
  | f :: rest => hasRecursiveField f || anyHasRecursiveField rest
end

/-- `annotation.HasRecursive` on a function declaration with the given
decorations and parameter list (`nil` type/params collapse to `none`). -/
def hasRecursiveFuncDecl (decs : NodeDecs) (params : Option FieldList) : Bool :=
  hasAnn decs ||
    match params with
    | some (.mk _ fields) => anyHasRecursiveField fields
    | none => false

/-- `shorten.chainLength`: number of `call → selector → call` links. -/
def chainLength : Expr → Nat
  | .callExpr _ (.selectorExpr _ x _) _ =>
    match x with
    | .callExpr d f a => chainLength (.callExpr d f a) + 1
    | _ => 1
  | _ => 1

/-- Is the expression a member selector (`*dst.SelectorExpr`)? -/
def isSelector : Expr → Bool
  | .selectorExpr .. => true
  | _ => false

/-- `shorten.formatList` on a decoration record: first item breaks before,
all items break after. -/
def formatListDecs (decs : NodeDecs) (index : Nat) : NodeDecs :=
  { decs with
    before := if index = 0 then SpaceType.newLine else SpaceType.nothing,
    after := SpaceType.newLine }

end Dst

namespace Tags

open Dst

/-- Go byte length of a piece of text (Go `len` on a string). -/
def byteLen (l : Line) : Nat := l.foldl (fun a c => a + c.utf8Size) 0

/-- Modelled from the spec: the entry parser of the tag library (the
`tags` package source is not under `src/`). A tag segment is a sequence of
space-separated `key:"value"` entries; a malformed segment yields `none`.
Fuel keeps the recursion structural; `parseEntries` supplies ample fuel. -/
def parseEntriesCore : Nat → Line → Option (List (Line × Line))
  | 0, _ => none
  | fuel + 1, l =>
    let l1 := l.dropWhile (fun c => c = ' ')
    if l1.isEmpty then some []
    else
      let key := l1.takeWhile (fun c => ¬(c = ':' ∨ c = ' ' ∨ c = '"' ∨ c = '`'))
      if key.isEmpty then none
      else
        match l1.drop key.length with
        | ':' :: '"' :: rest2 =>
          let v := rest2.takeWhile (fun c => ¬(c = '"'))
          match rest2.drop v.length with
          | '"' :: rest3 =>
            (parseEntriesCore fuel rest3).map (fun es => (key, v) :: es)
          | _ => none
        | _ => none

/-- Modelled from the spec: parse a backtick-free tag segment. -/
def parseEntries (l : Line) : Option (List (Line × Line)) :=
  parseEntriesCore (l.length + 1) l

/-- Modelled from the spec: parse a raw backtick-delimited tag literal. -/
def parseTag (t : Line) : Option (List (Line × Line)) :=
  match t with
  | '`' :: rest =>
    match GoStr.splitFirst '`' rest with
    | some (seg, []) => parseEntries seg
    | _ => none
  | _ => none

/-- Modelled from the spec: does the raw line contain a backtick-delimited
tag with more than one entry? -/
def lineHasMultipleTagEntries (l : Line) : Bool :=
  match GoStr.splitFirst '`' l with
  | some (_, rest) =>
    match GoStr.splitFirst '`' rest with
    | some (seg, _) =>
      match parseEntries seg with
      | some es => decide (es.length > 1)
      | none => false
    | none => false
  | none => false

/-- Modelled from the spec: `tags.HasMultipleTags` — whether any line of the
file carries a struct tag with more than one entry (the first-round stop
test of the convergence loop). -/
def HasMultipleTags (lines : List Line) : Bool :=
  lines.any lineHasMultipleTagEntries

/-- Rendered form of one tag entry: `key:"value"`. -/
def renderEntry (e : Line × Line) : Line :=
  e.1 ++ ':' :: '"' :: (e.2 ++ ['"'])

/-- Pad a rendering with trailing spaces up to the column width. -/
def padTo (w : Nat) (l : Line) : Line :=
  l ++ List.replicate (w - byteLen l) ' '

/-- Modelled from the spec: does a field open a new alignment block (blank
line or real, non-marker leading comment before it)? -/
def startsNewBlock (f : Field) : Bool :=
  f.decsOf.before = SpaceType.emptyLine ||
    f.decsOf.start.any (fun c => !(Marker.Is c))

def splitBlocksCore : List Field → List Field → List (List Field)
  | cur, [] => [cur.reverse]
  | cur, f :: rest =>
    if startsNewBlock f then cur.reverse :: splitBlocksCore [f] rest
    else splitBlocksCore (f :: cur) rest

/-- Modelled from the spec: partition a field list into alignment blocks. -/
def splitBlocks : List Field → List (List Field)
  | [] => []
  | f :: rest => splitBlocksCore [f] rest

/-- Column width of a key within a block: the widest rendering of that key. -/
def keyWidth (parsedTags : List (List (Line × Line))) (k : Line) : Nat :=
  parsedTags.foldl
    (fun m es =>
      (es.filter (fun e => e.1 = k)).foldl (fun m e => max m (byteLen (renderEntry e))) m)
    0

/-- Entries reordered into the canonical key order; keys outside the
canonical order keep their original relative order at the end. -/
def reorderEntries (canon : List Line) (es : List (Line × Line)) : List (Line × Line) :=
  (canon.filterMap (fun k => es.find? (fun e => e.1 = k))) ++
    es.filter (fun e => canon.all (fun k => ¬(e.1 = k)))

/-- Render a field's entries, padding every entry except the field's last to
its key's column width. -/
def renderEntries (widths : Line → Nat) : List (Line × Line) → Line
  | [] => []
  | [e] => renderEntry e
  | e :: rest => padTo (widths e.1) (renderEntry e) ++ ' ' :: renderEntries widths rest

/-- Modelled from the spec: align one block: canonical key order from the
first parseable tag, shared column widths, malformed tags untouched. -/
def alignBlock (fields : List Field) : List Field :=
  let parsed : List (Option (List (Line × Line))) :=
    fields.map (fun f => f.tagOf.bind parseTag)
  let tagged := parsed.filterMap id
  let canon : List Line :=
    match tagged.head? with
    | some es => es.map (fun e => e.1)
    | none => []
  let widths : Line → Nat := keyWidth tagged
  List.zipWith
    (fun f p =>
      match p with
      | some es =>
        f.withTag (some ('`' :: (renderEntries widths (reorderEntries canon es) ++ ['`'])))
      | none => f)
    fields parsed

/-- Modelled from the spec: `tags.FormatStructTags` — align the tag columns
of a struct's field list, block by block. -/
def FormatStructTags : FieldList → FieldList
  | .mk d fields => .mk d (List.flatten ((splitBlocks fields).map alignBlock))

end Tags

namespace Dst

@[simp] theorem sizeOf_spaceType (sp : SpaceType) : sizeOf sp = 1 := by
  cases sp <;> rfl

@[simp] theorem NodeDecs.sizeOf_eq (d : NodeDecs) :
    sizeOf d = 3 + sizeOf d.start + sizeOf d.endL := by
  cases d; simp

theorem Expr.sizeOf_decsOf_le (e : Expr) : sizeOf e.decsOf ≤ sizeOf e := by
  cases e <;> simp [Expr.decsOf] <;> omega

@[simp] theorem Expr.sizeOf_withDecs (e : Expr) (d : NodeDecs) :
    sizeOf (e.withDecs d) = sizeOf e - sizeOf e.decsOf + sizeOf d := by
  cases e <;> simp [Expr.withDecs, Expr.decsOf] <;> omega

@[simp] theorem Expr.sizeOf_withBefore (e : Expr) (sp : SpaceType) :
    sizeOf (e.withBefore sp) = sizeOf e := by
  have h := Expr.sizeOf_decsOf_le e
  simp at h
  simp [Expr.withBefore]
  omega

@[simp] theorem Expr.sizeOf_withAfter (e : Expr) (sp : SpaceType) :
    sizeOf (e.withAfter sp) = sizeOf e := by
  have h := Expr.sizeOf_decsOf_le e
  simp at h
  simp [Expr.withAfter]
  omega

/-- The `formatList` decoration step applied to a call argument when
`shortenChildArgs` holds (identity otherwise). -/
def argListDecorated (sca : Bool) (i : Nat) (a : Expr) : Expr :=
  if sca then a.withDecs (formatListDecs a.decsOf i) else a

@[simp] theorem sizeOf_argListDecorated (sca : Bool) (i : Nat) (a : Expr) :
    sizeOf (argListDecorated sca i a) = sizeOf a := by
  have h := Expr.sizeOf_decsOf_le a
  simp at h
  unfold argListDecorated
  split
  · simp [formatListDecs]
    omega
  · rfl

/-- The composite-literal decoration step: when shortening, the first
element breaks before and every element breaks after. -/
def elemDecorated (ss isFirst : Bool) (e : Expr) : Expr :=
  if ss then (if isFirst then e.withBefore SpaceType.newLine else e).withAfter SpaceType.newLine
  else e

@[simp] theorem sizeOf_elemDecorated (ss isFirst : Bool) (e : Expr) :
    sizeOf (elemDecorated ss isFirst e) = sizeOf e := by
  unfold elemDecorated
  split
  · split <;> simp
  · rfl

end Dst

namespace Shorten

open Dst

/-- `Shortener.formatFieldList`: apply `formatList` to every field. -/
def formatFieldsIdx : Nat → List Field → List Field
  | _, [] => []
  | i, f :: rest => f.withDecs (formatListDecs f.decsOf i) :: formatFieldsIdx (i + 1) rest

/-- `Shortener.formatFieldList`. -/
def formatFieldList : FieldList → FieldList
  | .mk d fields => .mk d (formatFieldsIdx 0 fields)

mutual
/-- `Shortener.formatDecl`. -/
def formatDecl (cfg : Config) : Decl → Decl
  | .funcDecl decs params body =>
    let params' : Option FieldList :=
      match params with
      | some fl =>
        some (if hasRecursiveFuncDecl decs (some fl) then formatFieldList fl else fl)
      | none => none
    Decl.funcDecl decs params' (formatStmtOpt cfg false body)
  | .genDecl decs specs => Decl.genDecl decs (formatSpecs cfg (hasAnn decs) specs)
  | .otherDecl decs => Decl.otherDecl decs
termination_by d => sizeOf d
decreasing_by all_goals (simp_wf; try omega)

/-- `formatStmt` lifted to a possibly-nil statement (Go's `reflect` nil
check at the top of `formatStmt` returns early on typed-nil arguments). -/
def formatStmtOpt (cfg : Config) (force : Bool) : Option Stmt → Option Stmt
  | some st => some (formatStmt cfg st force)
  | none => none
termination_by o => sizeOf o
decreasing_by all_goals (simp_wf; try omega)

def formatSpecs (cfg : Config) (force : Bool) : List Spec → List Spec
  | [] => []
  | sp :: rest => formatSpec cfg sp force :: formatSpecs cfg force rest
termination_by l => sizeOf l
decreasing_by all_goals (simp_wf; try omega)

/-- `Shortener.formatSpec`. -/
def formatSpec (cfg : Config) (sp : Spec) (force : Bool) : Spec :=
  let ss := hasAnn sp.decsOf || force
  match sp with
  | .valueSpec decs values => Spec.valueSpec decs (formatExprsWith cfg ss values)
  | .typeSpec decs ty => Spec.typeSpec decs (formatExpr cfg ty false false)
  | .otherSpec decs => Spec.otherSpec decs
termination_by sizeOf sp
decreasing_by all_goals (simp_wf; try omega)

/-- Walk each expression with the given force flag and `isChain = false`
(assignment right-hand sides, return results, value-spec initialisers). -/
def formatExprsWith (cfg : Config) (force : Bool) : List Expr → List Expr
  | [] => []
  | e :: rest => formatExpr cfg e force false :: formatExprsWith cfg force rest
termination_by l => sizeOf l
decreasing_by all_goals (simp_wf; try omega)

/-- Walk each statement of a block body with `force = false`. -/
def formatStmts (cfg : Config) : List Stmt → List Stmt
  | [] => []
  | st :: rest => formatStmt cfg st false :: formatStmts cfg rest
termination_by l => sizeOf l
decreasing_by all_goals (simp_wf; try omega)

/-- Case-clause arguments when shortening: break after each, then walk. -/
def formatCaseArgs (cfg : Config) : List Expr → List Expr
  | [] => []
  | e :: rest =>
    formatExpr cfg (e.withAfter SpaceType.newLine) false false :: formatCaseArgs cfg rest
termination_by l => sizeOf l
decreasing_by all_goals (simp_wf; try omega)

/-- `Shortener.formatStmt`. -/
def formatStmt (cfg : Config) (stmt : Stmt) (force : Bool) : Stmt :=
  let ss := force || hasAnn stmt.decsOf
  match stmt with
  | .assignStmt decs lhs rhs => Stmt.assignStmt decs lhs (formatExprsWith cfg ss rhs)
  | .blockStmt decs stmts => Stmt.blockStmt decs (formatStmts cfg stmts)
  | .caseClause decs list body =>
    Stmt.caseClause decs (if ss then formatCaseArgs cfg list else list)
      (formatStmts cfg body)
  | .commClause decs comm body => Stmt.commClause decs comm (formatStmts cfg body)
  | .declStmt decs d => Stmt.declStmt decs (formatDecl cfg d)
  | .deferStmt decs call => Stmt.deferStmt decs (formatExpr cfg call ss false)
  | .exprStmt decs x => Stmt.exprStmt decs (formatExpr cfg x ss false)
  | .forStmt decs init cond post body =>
    Stmt.forStmt decs init cond post (formatStmt cfg body false)
  | .goStmt decs call => Stmt.goStmt decs (formatExpr cfg call ss false)
  | .ifStmt decs init cond body els =>
    Stmt.ifStmt decs (formatStmtOpt cfg ss init) (formatExpr cfg cond ss false)
      (formatStmt cfg body false) els
  | .rangeStmt decs key value x body =>
    Stmt.rangeStmt decs key value x (formatStmt cfg body false)
  | .returnStmt decs results => Stmt.returnStmt decs (formatExprsWith cfg ss results)
  | .selectStmt decs body => Stmt.selectStmt decs (formatStmt cfg body false)
  | .switchStmt decs init tag body =>
    Stmt.switchStmt decs init tag (formatStmt cfg body false)
  | .otherStmt decs => Stmt.otherStmt decs
termination_by sizeOf stmt
decreasing_by all_goals (simp_wf; try omega)

/-- Call arguments in the non-chain branch: `formatList` when
`shortenChildArgs`, then walk with `force = false`. -/
def formatCallArgs (cfg : Config) (sca isChain : Bool) : Nat → List Expr → List Expr
  | _, [] => []
  | i, a :: rest =>
    formatExpr cfg (argListDecorated sca i a) false isChain ::
      formatCallArgs cfg sca isChain (i + 1) rest
termination_by _ l => sizeOf l
decreasing_by all_goals (simp_wf; try omega)

/-- Call arguments in the chain branch: walk each as part of a chain. -/
def formatChainArgs (cfg : Config) : List Expr → List Expr
  | [] => []
  | a :: rest => formatExpr cfg a false true :: formatChainArgs cfg rest
termination_by l => sizeOf l
decreasing_by all_goals (simp_wf; try omega)

/-- Composite-literal elements: first gets `Before = NewLine` and every
element `After = NewLine` when shortening; each element then walked with
`force = false`. -/
def formatElems (cfg : Config) (ss isChain isFirst : Bool) : List Expr → List Expr
  | [] => []
  | e :: rest =>
    formatExpr cfg (elemDecorated ss isFirst e) false isChain ::
      formatElems cfg ss isChain false rest
termination_by l => sizeOf l
decreasing_by all_goals (simp_wf; try omega)

/-- Interface methods: force-walk the type of each method that itself
carries an annotation. -/
def formatIfaceFields (cfg : Config) (isChain : Bool) : List Field → List Field
  | [] => []
  | .mk fd fty ftag :: rest =>
    (if hasAnn fd then Dst.Field.mk fd (formatExpr cfg fty true isChain) ftag
     else Dst.Field.mk fd fty ftag) :: formatIfaceFields cfg isChain rest
termination_by l => sizeOf l
decreasing_by all_goals (simp_wf; try omega)

/-- `Shortener.formatExpr`. -/
def formatExpr (cfg : Config) (expr : Expr) (force isChain : Bool) : Expr :=
  let ss := force || hasAnn expr.decsOf
  match expr with
  | .binaryExpr decs x op y =>
    if (op = Tok.land ∨ op = Tok.lor) ∧ ss = true then
      if y.decsOf.before = SpaceType.newLine then
        Expr.binaryExpr decs (formatExpr cfg x force isChain) op y
      else
        Expr.binaryExpr decs x op (y.withBefore SpaceType.newLine)
    else
      Expr.binaryExpr decs (formatExpr cfg x ss isChain) op (formatExpr cfg y ss isChain)
  | .callExpr decs fn args =>
    let sca := ss || hasRecursiveExpr (.callExpr decs fn args)
    if isSelector fn = true ∧ sca = true ∧ cfg.chainSplitDots = true ∧
        (isChain = true ∨ chainLength (.callExpr decs fn args) > 1) then
      Expr.callExpr { decs with after := SpaceType.newLine }
        (formatExpr cfg fn ss true) (formatChainArgs cfg args)
    else
      Expr.callExpr decs (formatExpr cfg fn ss isChain)
        (formatCallArgs cfg sca isChain 0 args)
  | .compositeLit decs elts =>
    Expr.compositeLit decs (formatElems cfg ss isChain true elts)
  | .funcLit decs body => Expr.funcLit decs (formatStmt cfg body false)
  | .funcType decs params =>
    Expr.funcType decs (if ss then formatFieldList params else params)
  | .interfaceType decs (.mk md methods) =>
    Expr.interfaceType decs (FieldList.mk md (formatIfaceFields cfg isChain methods))
  | .keyValueExpr decs k v => Expr.keyValueExpr decs k (formatExpr cfg v ss isChain)
  | .selectorExpr decs x sel => Expr.selectorExpr decs (formatExpr cfg x ss isChain) sel
  | .structType decs fields =>
    Expr.structType decs (if cfg.reformatTags then Tags.FormatStructTags fields else fields)
  | .unaryExpr decs x => Expr.unaryExpr decs (formatExpr cfg x ss isChain)
  | .ident decs name => Expr.ident decs name
  | .otherExpr decs => Expr.otherExpr decs
termination_by sizeOf expr
decreasing_by all_goals (simp_wf; try omega)
end

end Shorten

namespace Shorten

open Dst

/-- Binary logical condition used in the C5 counterexample. -/
def demoCond : Expr :=
  Expr.binaryExpr noDecs (Expr.ident noDecs ['a']) Tok.land (Expr.ident noDecs ['b'])

/-- A `for` statement whose condition is `demoCond`. -/
def demoFor : Stmt :=
  Stmt.forStmt noDecs none (some demoCond) none (Stmt.blockStmt noDecs [])

end Shorten

/-- C5 (counterexample): the rewriter walked over a `for` statement with
`force = true` leaves the statement — in particular its condition — entirely
unchanged, although force-walking that same condition expression (as the
claim asserts happens) would change it by inserting a line break before the
right operand. So `for` (and likewise range/select/switch) conditions are
not force-walked. -/
theorem stmt_condition_walk_counterexample :
    Shorten.formatStmt Shorten.NewDefaultConfig Shorten.demoFor true = Shorten.demoFor ∧
    Shorten.formatExpr Shorten.NewDefaultConfig Shorten.demoCond true false ≠
      Shorten.demoCond := by
  constructor
  · simp [Shorten.formatStmt, Shorten.formatStmts, Shorten.demoFor]
  · intro h
    simp [Shorten.formatExpr, Shorten.demoCond, Dst.hasAnn, Dst.noDecs, Dst.Expr.decsOf,
      Dst.Expr.withBefore, Dst.Expr.withDecs] at h

/-- C5 (amended): among `if`, `for`, `range`, `select` and `switch`
statements, only the `if` statement's condition is walked — with the
statement's `shouldShorten` (and its init statement likewise); `for`,
`range`, `select` and `switch` walk only their nested body with
`force = false`, leaving their condition/range/tag expressions untouched.
Every one of the five walks its body with `force = false`. -/
theorem stmt_condition_walk (cfg : Shorten.Config) (force : Bool) (decs : Dst.NodeDecs)
    (init : Option Dst.Stmt) (cond : Dst.Expr) (body : Dst.Stmt) (els : Option Dst.Stmt)
    (fInit : Option Dst.Stmt) (fCond : Option Dst.Expr) (post : Option Dst.Stmt)
    (key value : Option Dst.Expr) (x : Dst.Expr) (tag : Option Dst.Expr) :
    (Shorten.formatStmt cfg (Dst.Stmt.ifStmt decs init cond body els) force =
      Dst.Stmt.ifStmt decs
        (Shorten.formatStmtOpt cfg (force || Dst.hasAnn decs) init)
        (Shorten.formatExpr cfg cond (force || Dst.hasAnn decs) false)
        (Shorten.formatStmt cfg body false) els) ∧
    (Shorten.formatStmt cfg (Dst.Stmt.forStmt decs fInit fCond post body) force =
      Dst.Stmt.forStmt decs fInit fCond post (Shorten.formatStmt cfg body false)) ∧
    (Shorten.formatStmt cfg (Dst.Stmt.rangeStmt decs key value x body) force =
      Dst.Stmt.rangeStmt decs key value x (Shorten.formatStmt cfg body false)) ∧
    (Shorten.formatStmt cfg (Dst.Stmt.selectStmt decs body) force =
      Dst.Stmt.selectStmt decs (Shorten.formatStmt cfg body false)) ∧
    (Shorten.formatStmt cfg (Dst.Stmt.switchStmt decs fInit tag body) force =
      Dst.Stmt.switchStmt decs fInit tag (Shorten.formatStmt cfg body false)) := by
  refine ⟨?_, ?_, ?_, ?_, ?_⟩ <;>
    simp only [Shorten.formatStmt, Dst.Stmt.decsOf]

/-- C6: walking a binary expression: with a logical AND/OR operator and
`shouldShorten`, either the right operand already starts on a new line — the
rewriter recurses into the left operand only, adding no break — or the right
operand's `Before` decoration is set to `NewLine` (and nothing else
changes); with any other operator (or without `shouldShorten`),
`shouldShorten` is propagated into both operands and this node inserts no
break decoration. -/
theorem binary_expr_walk (cfg : Shorten.Config) (force isChain : Bool)
    (decs : Dst.NodeDecs) (x : Dst.Expr) (op : Dst.Tok) (y : Dst.Expr) :
    Shorten.formatExpr cfg (Dst.Expr.binaryExpr decs x op y) force isChain =
      if (op = Dst.Tok.land ∨ op = Dst.Tok.lor) ∧ (force || Dst.hasAnn decs) = true then
        if y.decsOf.before = Dst.SpaceType.newLine then
          Dst.Expr.binaryExpr decs (Shorten.formatExpr cfg x force isChain) op y
        else
          Dst.Expr.binaryExpr decs x op (y.withBefore Dst.SpaceType.newLine)
      else
        Dst.Expr.binaryExpr decs
          (Shorten.formatExpr cfg x (force || Dst.hasAnn decs) isChain) op
          (Shorten.formatExpr cfg y (force || Dst.hasAnn decs) isChain) := by
  simp only [Shorten.formatExpr, Dst.Expr.decsOf]

/-- C7: on a call expression whose callee is a member selector, when
chain-splitting is enabled, the call (or an argument or the callee) carries
an annotation or shortening is forced, and the call is part of a chain or
has chain length above 1: the call gets `After = NewLine`, each argument is
walked as part of a chain, and the callee is walked as part of a chain;
chain length counts `call → selector → call` links. -/
theorem call_chain_split :
    (∀ (cfg : Shorten.Config) (force isChain : Bool) (decs : Dst.NodeDecs)
        (fn : Dst.Expr) (args : List Dst.Expr),
      Dst.isSelector fn = true →
      ((force || Dst.hasAnn decs) ||
        Dst.hasRecursiveExpr (Dst.Expr.callExpr decs fn args)) = true →
      cfg.chainSplitDots = true →
      (isChain = true ∨ Dst.chainLength (Dst.Expr.callExpr decs fn args) > 1) →
      Shorten.formatExpr cfg (Dst.Expr.callExpr decs fn args) force isChain =
        Dst.Expr.callExpr { decs with after := Dst.SpaceType.newLine }
          (Shorten.formatExpr cfg fn (force || Dst.hasAnn decs) true)
          (Shorten.formatChainArgs cfg args)) ∧
    (∀ (d1 d2 d3 : Dst.NodeDecs) (f3 : Dst.Expr) (a3 : List Dst.Expr)
        (sel : Dst.Expr) (a1 : List Dst.Expr),
      Dst.chainLength
          (Dst.Expr.callExpr d1 (Dst.Expr.selectorExpr d2 (Dst.Expr.callExpr d3 f3 a3) sel) a1) =
        Dst.chainLength (Dst.Expr.callExpr d3 f3 a3) + 1) := by
  constructor
  · intro cfg force isChain decs fn args hsel hsca hdots hchain
    simp only [Shorten.formatExpr, Dst.Expr.decsOf]
    rw [if_pos ⟨hsel, hsca, hdots, hchain⟩]
  · intro d1 d2 d3 f3 a3 sel a1
    simp [Dst.chainLength]

namespace Shorten

open Dst

/-- Inner call of the witness chain `a().b()`. -/
def demoInnerCall : Expr := Expr.callExpr noDecs (Expr.ident noDecs ['a']) []

/-- Callee of the witness chain call: the selector `a().b`. -/
def demoChainFn : Expr := Expr.selectorExpr noDecs demoInnerCall (Expr.ident noDecs ['b'])

end Shorten

/-- Witness for C7 at the concrete chain call `a().b()` with `force = true`
and `isChain = true`. -/
theorem call_chain_split_witness :
    Shorten.formatExpr Shorten.NewDefaultConfig
        (Dst.Expr.callExpr Dst.noDecs Shorten.demoChainFn []) true true =
      Dst.Expr.callExpr { Dst.noDecs with after := Dst.SpaceType.newLine }
        (Shorten.formatExpr Shorten.NewDefaultConfig Shorten.demoChainFn
          (true || Dst.hasAnn Dst.noDecs) true)
        (Shorten.formatChainArgs Shorten.NewDefaultConfig []) :=
  call_chain_split.1 Shorten.NewDefaultConfig true true Dst.noDecs Shorten.demoChainFn []
    rfl rfl rfl (Or.inl rfl)

namespace Shorten

/-- Go `strings.Split(s, "\n")` over rune lists. -/
def splitLines : Line → List Line
  | [] => [[]]
  | c :: rest =>
    if c = '\n' then [] :: splitLines rest
    else
      match splitLines rest with
      | [] => [[c]]
      | l :: ls => (c :: l) :: ls

/-- Go `strings.Join(lines, "\n")`. -/
def joinLines : List Line → Line
  | [] => []
  | [l] => l
  | l :: ls => l ++ '\n' :: joinLines ls

theorem splitLines_ne_nil (t : Line) : splitLines t ≠ [] := by
  induction t with
  | nil => simp [splitLines]
  | cons c rest ih =>
    simp only [splitLines]
    split
    · simp
    · split
      · simp
      · simp

theorem joinLines_splitLines (t : Line) : joinLines (splitLines t) = t := by
  induction t with
  | nil => rfl
  | cons c rest ih =>
    simp only [splitLines]
    split
    · next hc =>
      subst hc
      match hs : splitLines rest with
      | [] => exact absurd hs (splitLines_ne_nil rest)
      | l :: ls =>
        rw [hs] at ih
        simp [joinLines, ih]
    · next hc =>
      match hs : splitLines rest with
      | [] => exact absurd hs (splitLines_ne_nil rest)
      | [l] =>
        rw [hs] at ih
        simp only [joinLines] at ih ⊢
        simp [ih]
      | l :: l2 :: ls =>
        rw [hs] at ih
        simp only [joinLines] at ih ⊢
        simp [ih]

/-- `Shortener.removeAnnotations`: drop every marker line. -/
def removeAnnotations (content : Line) : Line :=
  joinLines ((splitLines content).filter (fun l => !Marker.Is l))

/-- `shorten.isDirective`: the compiled `directivePattern` regular
expression `\s*//(line |extern |export |[a-z0-9]+:[a-z0-9])` is unanchored;
`MatchString` succeeds iff some position of the line starts `//` followed by
one of the alternatives ([a-z0-9]+ being maximal-run equivalent). -/
def isLowerDigit (c : Char) : Bool :=
  ('a' ≤ c && c ≤ 'z') || ('0' ≤ c && c ≤ '9')

def directiveAt (l : Line) : Bool :=
  match l with
  | '/' :: '/' :: rest =>
    "line ".toList.isPrefixOf rest || "extern ".toList.isPrefixOf rest ||
      "export ".toList.isPrefixOf rest ||
      (let run := rest.takeWhile isLowerDigit
       !run.isEmpty &&
         (match rest.drop run.length with
          | ':' :: d :: _ => isLowerDigit d
          | _ => false))
  | _ => false

def isDirective (l : Line) : Bool :=
  l.tails.any directiveAt

/-- Go `strings.Join(words, " ")`. -/
def joinWords : List Line → Line
  | [] => []
  | [w] => w
  | w :: ws => w ++ ' ' :: joinWords ws

/-- The comment-reflow flush step of `shortenCommentsFunc`: greedily pack
the accumulated `words` into lines at most `maxLen` wide given the comment
leader `prefixL` (Go `len` on words is the byte length). -/
def reflowFlush (cfg : Config) (prefixL : Line) (words : List Line) : List Line :=
  let maxCommentLen : Int := (cfg.maxLen : Int) - (lineLen cfg prefixL : Int)
  let step :
      (List Line × Nat × List Line) → Line → (List Line × Nat × List Line) :=
    fun acc word =>
      let (outLines, currLineLen, currWords) := acc
      if currLineLen > 0 ∧ maxCommentLen < (currLineLen : Int) + 1 + (Tags.byteLen word : Int) then
        (outLines ++ [prefixL ++ ' ' :: joinWords currWords],
          Tags.byteLen word + 1, [word])
      else
        (outLines, currLineLen + 1 + Tags.byteLen word, currWords ++ [word])
  let r := words.foldl step ([], 0, [])
  if r.2.1 > 0 then r.1 ++ [prefixL ++ ' ' :: joinWords r.2.2] else r.1

end Shorten

namespace Shorten

/-- Go `strings.Trim(s, " ")`: spaces only. -/
def trimSpaces (l : Line) : Line :=
  ((l.dropWhile (fun c => c = ' ')).reverse.dropWhile (fun c => c = ' ')).reverse

/-- Go `strings.Split(s, " ")`. -/
def splitOnSpace : Line → List Line
  | [] => [[]]
  | c :: rest =>
    if c = ' ' then [] :: splitOnSpace rest
    else
      match splitOnSpace rest with
      | [] => [[c]]
      | l :: ls => (c :: l) :: ls

/-- Split a line at the first occurrence of `//` (Go `strings.Index(line,
"//")` plus the two slicings): the part up to and including `//`, and the
remainder. `none` when the line has no `//` (unreachable under the
`isComment` guard of the caller). -/
def splitAtCommentCore : Line → Line → Option (Line × Line)
  | acc, '/' :: '/' :: rest => some (acc.reverse ++ ['/', '/'], rest)
  | acc, c :: rest => splitAtCommentCore (c :: acc) rest
  | _, [] => none

/-- `Shortener.shortenCommentsFunc`, one line at a time: long plain-comment
lines (not markers, not directives) contribute their words to the current
run; any other line flushes the reflowed run before being emitted
unchanged. Words still pending when the input ends are dropped, as in the
source. -/
def shortenCommentsCore (cfg : Config) (words : List Line) (prefixL : Line) :
    List Line → List Line
  | [] => []
  | line :: rest =>
    if isComment line = true ∧ Marker.Is line = false ∧ isDirective line = false ∧
        cfg.maxLen < lineLen cfg line then
      match splitAtCommentCore [] line with
      | some (pre, after) =>
        shortenCommentsCore cfg (words ++ splitOnSpace (trimSpaces after)) pre rest
      | none => shortenCommentsCore cfg words prefixL rest
    else
      reflowFlush cfg prefixL words ++ line :: shortenCommentsCore cfg [] prefixL rest

/-- `Shortener.shortenCommentsFunc`. -/
def shortenCommentsFunc (cfg : Config) (content : Line) : Line :=
  joinLines (shortenCommentsCore cfg [] [] (splitLines content))

/-- `shorten.maxRounds`: the round cap of the convergence loop. -/
def maxRounds : Nat := 20

/-- One file, top-level declarations walked in order (`Process` lines
156-159, dispatching through `formatNode` to `formatDecl`). -/
def formatFile (cfg : Config) : List Dst.Decl → List Dst.Decl
  | [] => []
  | d :: rest => formatDecl cfg d :: formatFile cfg rest

/-- One iteration of the `for` loop of `Shortener.Process` (the
ConvergenceLoop), up to the round-counter bump: scan and annotate; decide
the stop condition (count zero, with the round-0 tag special case);
otherwise parse the annotated text, rewrite every top-level declaration,
print, and hard-stop when the bumped round counter passes `maxRounds`.
`Sum.inl r` means the loop ends now with result `r` (`r`'s second component
counts the scan-rewrite-print rounds executed at this iteration, `0` on
stop, `1` on the hard stop); `Sum.inr c` means the loop continues on the
printed text `c`. The parser and printer are the external `dave/dst`
collaborators, passed as function parameters; the debug dot-file export
(pure I/O) is omitted. -/
def loopStep (cfg : Config) (parse : Line → Option (List Dst.Decl))
    (printer : List Dst.Decl → Option Line) (round : Nat) (content : Line) :
    Option (Line × Nat) ⊕ Line :=
  let lines := splitLines content
  let p := annotateLongLines cfg lines
  let stop : Bool :=
    if p.2 == 0 then
      if round == 0 then !cfg.reformatTags || !Tags.HasMultipleTags lines
      else true
    else false
  if stop then Sum.inl (some (content, 0))
  else
    match parse (joinLines p.1) with
    | none => Sum.inl none
    | some decls =>
      match printer (formatFile cfg decls) with
      | none => Sum.inl none
      | some content2 =>
        if round + 1 > maxRounds then Sum.inl (some (content2, 1))
        else Sum.inr content2

/-- The `for` loop of `Shortener.Process`: iterate `loopStep`, counting the
executed scan-rewrite-print rounds. `fuel` only makes the recursion
structural; it never cuts the loop short when `fuel + round ≥ maxRounds`
(see `processLoopF_fuel`), and `Process` runs the loop with ample fuel. -/
def processLoopF (cfg : Config) (parse : Line → Option (List Dst.Decl))
    (printer : List Dst.Decl → Option Line) :
    Nat → Nat → Line → Option (Line × Nat)
  | fuel, round, content =>
    match loopStep cfg parse printer round content with
    | Sum.inl r => r
    | Sum.inr content2 =>
      match fuel with
      | 0 => none
      | f + 1 =>
        match processLoopF cfg parse printer f (round + 1) content2 with
        | none => none
        | some tr => some (tr.1, tr.2 + 1)

/-- `Shortener.Process`: initial gofmt pass (the external `format.Source`
collaborator `fmtSrc`), the convergence loop, marker removal (unless
`KeepAnnotations`), optional comment shortening, and the final gofmt
pass. -/
def Process (cfg : Config) (fmtSrc : Line → Option Line)
    (parse : Line → Option (List Dst.Decl)) (printer : List Dst.Decl → Option Line)
    (content : Line) : Option Line :=
  match fmtSrc content with
  | none => none
  | some c0 =>
    match processLoopF cfg parse printer maxRounds 0 c0 with
    | none => none
    | some c1r =>
      let c2 := if cfg.keepAnnotations then c1r.1 else removeAnnotations c1r.1
      let c3 := if cfg.shortenComments then shortenCommentsFunc cfg c2 else c2
      fmtSrc c3

end Shorten

namespace Shorten

theorem loopStep_inr {cfg : Config} {parse : Line → Option (List Dst.Decl)}
    {printer : List Dst.Decl → Option Line} {round : Nat} {content c2 : Line}
    (h : loopStep cfg parse printer round content = Sum.inr c2) :
    round + 1 ≤ maxRounds := by
  simp only [loopStep] at h
  repeat' split at h
  all_goals simp_all
  all_goals omega

theorem loopStep_inl_rounds {cfg : Config} {parse : Line → Option (List Dst.Decl)}
    {printer : List Dst.Decl → Option Line} {round : Nat} {content t : Line} {r : Nat}
    (h : loopStep cfg parse printer round content = Sum.inl (some (t, r))) :
    r ≤ 1 := by
  simp only [loopStep] at h
  repeat' split at h
  all_goals simp_all
  all_goals omega

theorem processLoopF_fuel (cfg : Config) (parse : Line → Option (List Dst.Decl))
    (printer : List Dst.Decl → Option Line) :
    ∀ (f1 f2 round : Nat) (content : Line),
      maxRounds ≤ round + f1 → maxRounds ≤ round + f2 →
      processLoopF cfg parse printer f1 round content =
        processLoopF cfg parse printer f2 round content := by
  intro f1
  induction f1 with
  | zero =>
    intro f2 round content h1 h2
    unfold processLoopF
    cases hs : loopStep cfg parse printer round content with
    | inl r => rfl
    | inr c2 =>
      have := loopStep_inr hs
      omega
  | succ f ih =>
    intro f2 round content h1 h2
    unfold processLoopF
    cases hs : loopStep cfg parse printer round content with
    | inl r => rfl
    | inr c2 =>
      have hr := loopStep_inr hs
      obtain ⟨f2', rfl⟩ : ∃ f2', f2 = f2' + 1 := by
        cases f2 with
        | zero => exact absurd h2 (by omega)
        | succ n => exact ⟨n, rfl⟩
      dsimp only
      rw [ih f2' (round + 1) c2 (by omega) (by omega)]

theorem processLoopF_rounds_le (cfg : Config) (parse : Line → Option (List Dst.Decl))
    (printer : List Dst.Decl → Option Line) :
    ∀ (fuel round : Nat) (content t : Line) (r : Nat),
      processLoopF cfg parse printer fuel round content = some (t, r) → r ≤ fuel + 1 := by
  intro fuel
  induction fuel with
  | zero =>
    intro round content t r h
    unfold processLoopF at h
    cases hs : loopStep cfg parse printer round content with
    | inl r0 =>
      rw [hs] at h
      dsimp only at h
      subst h
      exact loopStep_inl_rounds hs
    | inr c2 =>
      rw [hs] at h
      dsimp only at h
      exact absurd h (by simp)
  | succ f ih =>
    intro round content t r h
    unfold processLoopF at h
    cases hs : loopStep cfg parse printer round content with
    | inl r0 =>
      rw [hs] at h
      dsimp only at h
      subst h
      exact Nat.le_trans (loopStep_inl_rounds hs) (by omega)
    | inr c2 =>
      rw [hs] at h
      dsimp only at h
      match hrec : processLoopF cfg parse printer f (round + 1) c2 with
      | none => rw [hrec] at h; exact absurd h (by simp)
      | some tr =>
        rw [hrec] at h
        simp at h
        have := ih (round + 1) c2 tr.1 tr.2 hrec
        omega

end Shorten

namespace Shorten

theorem loopStep_stop (cfg : Config) (parse : Line → Option (List Dst.Decl))
    (printer : List Dst.Decl → Option Line) (round : Nat) (content : Line)
    (h : (annotateLongLines cfg (splitLines content)).2 = 0)
    (hc : round ≠ 0 ∨ cfg.reformatTags = false ∨
      Tags.HasMultipleTags (splitLines content) = false) :
    loopStep cfg parse printer round content = Sum.inl (some (content, 0)) := by
  simp only [loopStep]
  have hstop : (if (annotateLongLines cfg (splitLines content)).2 == 0 then
      (if round == 0 then !cfg.reformatTags || !Tags.HasMultipleTags (splitLines content)
       else true)
      else false) = true := by
    rw [if_pos (by simp [h])]
    rcases hc with h1 | h1 | h1
    · rw [if_neg (by simp [h1])]
    · cases hr : (round == 0) <;> simp [h1]
    · cases hr : (round == 0) <;> simp [h1]
  rw [if_pos hstop]

/-- C8: whenever a round's scan reports zero lines to shorten, the loop
returns the current text having executed zero further rounds exactly when
the round counter is nonzero, or tag reformatting is disabled, or no line
of the file carries a multi-entry struct tag; on round 0 with
reformat-tags enabled and a multi-entry tag present it does not stop. -/
theorem first_round_tag_stop (cfg : Config) (parse : Line → Option (List Dst.Decl))
    (printer : List Dst.Decl → Option Line) (fuel round : Nat) (content : Line)
    (h : (annotateLongLines cfg (splitLines content)).2 = 0) :
    (processLoopF cfg parse printer fuel round content = some (content, 0)) ↔
      (round ≠ 0 ∨ cfg.reformatTags = false ∨
        Tags.HasMultipleTags (splitLines content) = false) := by
  constructor
  · intro hres
    by_contra hrc
    push_neg at hrc
    obtain ⟨h0, h1, h2⟩ := hrc
    have h1' : cfg.reformatTags = true := by
      cases hcf : cfg.reformatTags <;> simp_all
    have h2' : Tags.HasMultipleTags (splitLines content) = true := by
      cases hcf : Tags.HasMultipleTags (splitLines content) <;> simp_all
    unfold processLoopF at hres
    cases hs : loopStep cfg parse printer round content with
    | inl r0 =>
      rw [hs] at hres
      dsimp only at hres
      subst hres
      simp only [loopStep] at hs
      rw [show (if (annotateLongLines cfg (splitLines content)).2 == 0 then
          (if round == 0 then
            !cfg.reformatTags || !Tags.HasMultipleTags (splitLines content)
           else true)
          else false) = false by simp [h, h0, h1', h2']] at hs
      repeat' split at hs
      all_goals simp_all
    | inr c2 =>
      rw [hs] at hres
      dsimp only at hres
      match fuel with
      | 0 => exact absurd hres (by simp)
      | f + 1 =>
        dsimp only at hres
        match hrec : processLoopF cfg parse printer f (round + 1) c2 with
        | none => rw [hrec] at hres; exact absurd hres (by simp)
        | some tr => rw [hrec] at hres; simp at hres
  · intro hc
    unfold processLoopF
    rw [loopStep_stop cfg parse printer round content h hc]

end Shorten

namespace Shorten

/-- A parser collaborator that always fails (never reached in the uses). -/
def parseNone : Line → Option (List Dst.Decl) := fun _ => none

/-- A printer collaborator that always fails (never reached in the uses). -/
def printNone : List Dst.Decl → Option Line := fun _ => none

/-- Tiny configuration for the round-cap counterexample. -/
def cfgTiny : Config :=
  { maxLen := 1, tabLen := 1, keepAnnotations := false, shortenComments := false,
    reformatTags := false, dotFile := [], chainSplitDots := true }

/-- Parser collaborator that always yields an empty file. -/
def parseNil : Line → Option (List Dst.Decl) := fun _ => some []

/-- Printer collaborator that always prints the two-character line `aa`. -/
def printAA : List Dst.Decl → Option Line := fun _ => some ['a', 'a']

end Shorten

/-- Witness for C8: at round 1 with a within-budget one-line input, the loop
stops at once with the content unchanged. -/
theorem first_round_tag_stop_witness :
    Shorten.processLoopF Shorten.NewDefaultConfig Shorten.parseNone Shorten.printNone
      Shorten.maxRounds 1 ['x'] = some (['x'], 0) :=
  (Shorten.first_round_tag_stop Shorten.NewDefaultConfig Shorten.parseNone
    Shorten.printNone Shorten.maxRounds 1 ['x'] (by decide)).mpr (Or.inl (by decide))

/-- C3 (counterexample): with collaborators that always re-print an
over-budget line (`maxLen = 1`, printed text `aa`), the loop executes 21
scan-rewrite-print rounds — one more than the round cap of 20 — before the
hard stop. -/
theorem round_cap_counterexample :
    Shorten.processLoopF Shorten.cfgTiny Shorten.parseNil Shorten.printAA
        Shorten.maxRounds 0 ['a', 'a'] = some (['a', 'a'], 21) ∧
      21 > Shorten.maxRounds := by
  constructor
  · decide
  · decide

/-- C3 (amended): the ConvergenceLoop always terminates (the embedded loop
is a total function), and executes at most `maxRounds + 1 = 21`
scan-rewrite-print rounds — the round cap of 20 can be exceeded by exactly
one round, since the counter is bumped and compared only after a full round
has run. -/
theorem convergence_round_bound (cfg : Shorten.Config)
    (parse : Line → Option (List Dst.Decl)) (printer : List Dst.Decl → Option Line)
    (content t : Line) (r : Nat)
    (h : Shorten.processLoopF cfg parse printer Shorten.maxRounds 0 content = some (t, r)) :
    r ≤ Shorten.maxRounds + 1 :=
  Shorten.processLoopF_rounds_le cfg parse printer Shorten.maxRounds 0 content t r h

/-- Witness for C3 at the concrete 21-round run. -/
theorem convergence_round_bound_witness : 21 ≤ Shorten.maxRounds + 1 :=
  convergence_round_bound Shorten.cfgTiny Shorten.parseNil Shorten.printAA
    ['a', 'a'] ['a', 'a'] 21 (by decide)

namespace Shorten

theorem markerCountSpec_zero (cfg : Config) :
    ∀ (lines : List Line) (prevLen : Int),
      (∀ l ∈ lines, lineLen cfg l ≤ cfg.maxLen) →
      markerCountSpec cfg prevLen lines = 0 := by
  intro lines
  induction lines with
  | nil => intro prevLen _; rfl
  | cons l rest ih =>
    intro prevLen hw
    have hl : lineLen cfg l ≤ cfg.maxLen := hw l (by simp)
    have hstep : needsMarkerStep cfg prevLen l = false := by
      unfold needsMarkerStep
      split <;> simp <;> omega
    simp only [markerCountSpec, hstep, if_false, Bool.false_eq_true, Nat.zero_add]
    exact ih (Marker.Parse l) (fun x hx => hw x (by simp [hx]))

theorem annotate_count_zero (cfg : Config) (lines : List Line)
    (hw : ∀ l ∈ lines, lineLen cfg l ≤ cfg.maxLen) :
    (annotateLongLines cfg lines).2 = 0 := by
  rw [annotateLongLines, annotateCore_count]
  simpa using markerCountSpec_zero cfg lines (-1) hw

theorem removeAnnotations_id (content : Line)
    (hm : ∀ l ∈ splitLines content, Marker.Is l = false) :
    removeAnnotations content = content := by
  rw [removeAnnotations]
  rw [List.filter_eq_self.mpr (fun l hl => by simp [hm l hl])]
  exact joinLines_splitLines content

end Shorten

/-- C2 (amended): if the input is a fixed point of the external base
formatter, every line is within `MaxLen` after tab expansion, no input line
is itself a marker annotation, comment shortening is off, and tag
reformatting is off or no line carries a multi-entry struct tag, then
`Process` returns the input byte-identically. -/
theorem process_roundtrip (cfg : Shorten.Config) (fmtSrc : Line → Option Line)
    (parse : Line → Option (List Dst.Decl)) (printer : List Dst.Decl → Option Line)
    (content : Line)
    (hf : fmtSrc content = some content)
    (hw : ∀ l ∈ Shorten.splitLines content, Shorten.lineLen cfg l ≤ cfg.maxLen)
    (hm : ∀ l ∈ Shorten.splitLines content, Marker.Is l = false)
    (hc : cfg.shortenComments = false)
    (ht : cfg.reformatTags = false ∨
      Tags.HasMultipleTags (Shorten.splitLines content) = false) :
    Shorten.Process cfg fmtSrc parse printer content = some content := by
  have hcnt := Shorten.annotate_count_zero cfg (Shorten.splitLines content) hw
  have hloop :
      Shorten.processLoopF cfg parse printer Shorten.maxRounds 0 content =
        some (content, 0) :=
    (Shorten.first_round_tag_stop cfg parse printer Shorten.maxRounds 0 content hcnt).mpr
      (Or.inr ht)
  have h2 : (if cfg.keepAnnotations = true then content
      else Shorten.removeAnnotations content) = content := by
    split
    · rfl
    · exact Shorten.removeAnnotations_id content hm
  simp only [Shorten.Process, hf, hloop, hc, Bool.false_eq_true, if_false, h2]

namespace Shorten

/-- A concrete behaviour of the external base formatter: `go/format.Source`
always terminates its output with a newline, so on input lacking one it
returns the input with `\n` appended (identity otherwise). -/
def fmtAddNewline (t : Line) : Option Line :=
  some (if t.getLast? = some '\n' then t else t ++ ['\n'])

end Shorten

/-- C2 (counterexample): the nine-character input `package x` (no trailing
newline) satisfies every condition of the claim — every line is far under
the default `MaxLen` of 100, there are no struct tags to align and no
comment changes apply — yet `Process` returns `package x\n`, not the input:
the initial/final base-formatter passes are not the identity. -/
theorem process_roundtrip_counterexample :
    (∀ l ∈ Shorten.splitLines "package x".toList,
      Shorten.lineLen Shorten.NewDefaultConfig l ≤ Shorten.NewDefaultConfig.maxLen) ∧
    Shorten.Process Shorten.NewDefaultConfig Shorten.fmtAddNewline
        Shorten.parseNone Shorten.printNone "package x".toList ≠
      some "package x".toList := by
  constructor
  · decide
  · decide

/-- Witness for C2 (amended) on the gofmt-fixed input `package x\n` with the
identity base formatter. -/
theorem process_roundtrip_witness :
    Shorten.Process Shorten.NewDefaultConfig some Shorten.parseNone Shorten.printNone
      "package x\n".toList = some "package x\n".toList :=
  process_roundtrip Shorten.NewDefaultConfig some Shorten.parseNone Shorten.printNone
    "package x\n".toList rfl (by decide) (by decide) rfl (Or.inr (by decide))

deriving instance DecidableEq for Except

namespace Runner

/-- Outcome of `os.Stat`: a plain file or a directory. -/
inductive PathInfo where
  | file
  | dir
  deriving DecidableEq, Repr

/-- The file-name component of a path (Go `filepath.Split`). -/
def fileName (path : Line) : Line :=
  (path.reverse.takeWhile (fun c => ¬(c = '/'))).reverse

/-- `Runner.isIgnoredFile`: non-`.go` files, and — with `ignore-generated`
set — files whose name starts `generated_`. -/
def isIgnoredFile (ignoreGenerated : Bool) (path : Line) : Bool :=
  if !(".go".toList.isSuffixOf path) then true
  else ignoreGenerated && "generated_".toList.isPrefixOf (fileName path)

/-- The argument-paths loop of `Runner.run` (`main.go` lines 178–224). The
stdin branch (no paths, lines 158–176) is I/O and outside this embedding.
`stat` models `os.Stat` (with the only attribute the loop reads, `IsDir`),
`walkDir` models the whole `filepath.Walk` call on a directory path, and
`process` models `Runner.process` on one file; all three are external
collaborators here. The second component is a ghost log of the file paths
on which `process` was invoked, in order. Note the Go source returns from
`run` — skipping all remaining paths — both when a file path is ignored
(`return nil`) and on the first error of `process` or `walkDir`. -/
def runPaths {E : Type} (stat : Line → Except E PathInfo)
    (walkDir process : Line → Except E Unit) (ig : Bool) :
    List Line → Except E Unit × List Line
  | [] => (Except.ok (), [])
  | p :: rest =>
    match stat p with
    | .error e => (Except.error e, [])
    | .ok PathInfo.file =>
      if isIgnoredFile ig p then (Except.ok (), [])
      else
        match process p with
        | .error e => (Except.error e, [p])
        | .ok _ =>
          let r := runPaths stat walkDir process ig rest
          (r.1, p :: r.2)
    | .ok PathInfo.dir =>
      match walkDir p with
      | .error e => (Except.error e, [])
      | .ok _ => runPaths stat walkDir process ig rest

/-- Everything is a plain file. -/
def statFile : Line → Except Nat PathInfo := fun _ => Except.ok PathInfo.file

/-- Directory walking never happens in the concrete runs below. -/
def walkNever : Line → Except Nat Unit := fun _ => Except.ok ()

/-- Per-file processing failing exactly on `a.go`. -/
def processFail1 : Line → Except Nat Unit :=
  fun p => if p = "a.go".toList then Except.error 0 else Except.ok ()

end Runner

/-- C9 (counterexample): submitting the two file paths `a.go`, `b.go` where
processing `a.go` fails: the run returns that single failure immediately
and `b.go` is never processed — a sibling file's failure does prevent the
remaining files from being processed, and only the first failure is
surfaced. -/
theorem runner_abort_counterexample :
    Runner.runPaths Runner.statFile Runner.walkNever Runner.processFail1 true
        ["a.go".toList, "b.go".toList] = (Except.error 0, ["a.go".toList]) ∧
    "b.go".toList ∉
      (Runner.runPaths Runner.statFile Runner.walkNever Runner.processFail1 true
        ["a.go".toList, "b.go".toList]).2 := by
  constructor
  · decide
  · decide

/-- C9 (amended): paths are processed sequentially in submission order; the
first per-file failure is returned at once as the run's only surfaced
error, and no later path is processed. -/
theorem runner_first_failure_aborts {E : Type} (stat : Line → Except E Runner.PathInfo)
    (walkDir process : Line → Except E Unit) (ig : Bool) (p : Line)
    (rest : List Line) (e : E)
    (hstat : stat p = Except.ok Runner.PathInfo.file)
    (hig : Runner.isIgnoredFile ig p = false)
    (hproc : process p = Except.error e) :
    Runner.runPaths stat walkDir process ig (p :: rest) = (Except.error e, [p]) := by
  simp [Runner.runPaths, hstat, hig, hproc]

/-- Witness for C9 (amended) at the concrete two-file run. -/
theorem runner_first_failure_aborts_witness :
    Runner.runPaths Runner.statFile Runner.walkNever Runner.processFail1 true
      ("a.go".toList :: ["b.go".toList]) = (Except.error 0, ["a.go".toList]) :=
  runner_first_failure_aborts Runner.statFile Runner.walkNever Runner.processFail1 true
    "a.go".toList ["b.go".toList] 0 rfl (by decide) (by decide)
